import Mathlib

/-!
Verification of `pytools.logging` (file `src/pytools/logging.py`): a shallow
embedding of its formatters (`CustomFormatter`, `JSONFormatter`), its JSON
array file handler (`JSONFileHandler`), and its `setup_logging` wiring,
together with proofs of the behavioural claims about them.

Strings are modelled as Lean `String`/`List Char`; the file is modelled as the
string of characters written to it; Python's `logging` record is modelled as a
structure carrying the fields the module reads.  The broken-down UTC time that
Python's `datetime` library produces from `record.created` is taken as given
(a `UTCTime` structure): the calendar conversion is an external collaborator,
while every piece of text formatting performed by the module itself is
embedded and verified.
-/

set_option maxRecDepth 10000
set_option maxHeartbeats 1000000

/-! ## Decimal digits (embedding of Python `str(int)` / `%d` for `int >= 0`) -/

/-- The decimal digit character of `n < 10`. -/
def digitChar (n : Nat) : Char := Char.ofNat (48 + n)

/-- Fuel-driven decimal rendering; with fuel above `n` it renders all digits of
`n`, most significant first. -/
def natToCharsAux : Nat → Nat → List Char
  | 0, _ => []
  | fuel + 1, n =>
    if n < 10 then [digitChar n]
    else natToCharsAux fuel (n / 10) ++ [digitChar (n % 10)]

/-- Decimal representation of a natural number, as Python `str`/`%d` writes it
(no sign, no leading zeros, `0` written as `0`). -/
def natToChars (n : Nat) : List Char := natToCharsAux (n + 1) n

/-- The decimal representation `natToChars n` packaged as a string. -/
def natStr (n : Nat) : String := String.mk (natToChars n)

/-- Left padding with a given character up to a given width. -/
def padLeft (fill : Char) (width : Nat) (l : List Char) : List Char :=
  List.replicate (width - l.length) fill ++ l

/-- A natural number zero-padded to a given width, as the `strftime`
directives `%Y %m %d %H %M %S %f` and the `%`-spec `%03d` write it. -/
def padNum (width n : Nat) : List Char := padLeft '0' width (natToChars n)

/-- Hexadecimal digit (lower case), for `\uXXXX` escapes. -/
def hexDigit (n : Nat) : Char :=
  if n < 10 then digitChar n else Char.ofNat (87 + n)

/-- Four-digit lower-case hexadecimal rendering, as Python's `'\\u%04x'`. -/
def toHex4 (n : Nat) : List Char :=
  [hexDigit (n / 4096 % 16), hexDigit (n / 256 % 16),
   hexDigit (n / 16 % 16), hexDigit (n % 16)]

/-- Decimal digit test on the character code (48–57). -/
def isDig (c : Char) : Bool := 48 ≤ c.toNat && c.toNat ≤ 57

/-- The characters `json.dumps` emits for one character of a string. -/
def escCharL (c : Char) : List Char :=
  if c = '\\' then ['\\', '\\']
  else if c = '"' then ['\\', '"']
  else if c = '\n' then ['\\', 'n']
  else if c = '\r' then ['\\', 'r']
  else if c = '\t' then ['\\', 't']
  else if c.toNat = 8 then ['\\', 'b']
  else if c.toNat = 12 then ['\\', 'f']
  else if c.toNat < 32 then '\\' :: 'u' :: toHex4 c.toNat
  else [c]

/-- The escaped body of a JSON string literal. -/
def escBody (l : List Char) : List Char := l.flatMap escCharL

/-- A complete JSON string literal for `s`, as `json.dumps` writes it:
opening quote, escaped body, closing quote. -/
def encStrChars (s : String) : List Char := '"' :: (escBody s.data ++ ['"'])

/-- The JSON string literal for `s`, as a `String`. -/
def encodeJsonString (s : String) : String := String.mk (encStrChars s)

/-- JSON whitespace (`space`, `tab`, `line feed`, `carriage return`). -/
def isWsChar (c : Char) : Bool := c = ' ' || c = '\t' || c = '\n' || c = '\r'

/-- Drop leading JSON whitespace. -/
def skipWs : List Char → List Char
  | [] => []
  | c :: rest => if isWsChar c then skipWs rest else c :: rest

/-- Value of one hexadecimal digit character, upper or lower case. -/
def hexVal (c : Char) : Option Nat :=
  if 48 ≤ c.toNat && c.toNat ≤ 57 then some (c.toNat - 48)
  else if 97 ≤ c.toNat && c.toNat ≤ 102 then some (c.toNat - 87)
  else if 65 ≤ c.toNat && c.toNat ≤ 70 then some (c.toNat - 55)
  else none

/-- Parse the body of a JSON string literal (the part after the opening
quote), returning the decoded characters and the input after the closing
quote.  Escapes are decoded per the JSON grammar; raw control characters are
rejected; `\uXXXX` is accepted for scalar values only. -/
def parseStringBody : List Char → Option (List Char × List Char)
  | [] => none
  | c :: rest =>
    if c = '"' then some ([], rest)
    else if c = '\\' then
      match rest with
      | [] => none
      | e :: rest₁ =>
        if e = '"' then (parseStringBody rest₁).map fun p => ('"' :: p.1, p.2)
        else if e = '\\' then (parseStringBody rest₁).map fun p => ('\\' :: p.1, p.2)
        else if e = '/' then (parseStringBody rest₁).map fun p => ('/' :: p.1, p.2)
        else if e = 'b' then (parseStringBody rest₁).map fun p => (Char.ofNat 8 :: p.1, p.2)
        else if e = 'f' then (parseStringBody rest₁).map fun p => (Char.ofNat 12 :: p.1, p.2)
        else if e = 'n' then (parseStringBody rest₁).map fun p => ('\n' :: p.1, p.2)
        else if e = 'r' then (parseStringBody rest₁).map fun p => ('\r' :: p.1, p.2)
        else if e = 't' then (parseStringBody rest₁).map fun p => ('\t' :: p.1, p.2)
        else if e = 'u' then
          match rest₁ with
          | a :: b :: c₂ :: d :: rest₂ =>
            match hexVal a, hexVal b, hexVal c₂, hexVal d with
            | some ha, some hb, some hc, some hd =>
              let n := ((ha * 16 + hb) * 16 + hc) * 16 + hd
              if n < 55296 then
                (parseStringBody rest₂).map fun p => (Char.ofNat n :: p.1, p.2)
              else none
            | _, _, _, _ => none
          | _ => none
        else none
    else if 32 ≤ c.toNat then (parseStringBody rest).map fun p => (c :: p.1, p.2)
    else none

/-- Digit-run parser with an accumulator. -/
def parseDigitsAcc : List Char → Nat → Nat × List Char
  | [], acc => (acc, [])
  | c :: rest, acc =>
    if isDig c then parseDigitsAcc rest (acc * 10 + (c.toNat - 48))
    else (acc, c :: rest)

/-- Parse a JSON non-negative integer token: a digit run, where a leading `0`
must be the whole token (JSON forbids leading zeros). -/
def parseNumTok : List Char → Option (Nat × List Char)
  | [] => none
  | c :: rest =>
    if c = '0' then
      match rest with
      | [] => some (0, [])
      | d :: _ => if isDig d then none else some (0, rest)
    else if isDig c then some (parseDigitsAcc rest (c.toNat - 48))
    else none

/-- Value of a digit run read left to right onto an accumulator. -/
def foldDig (acc : Nat) (ds : List Char) : Nat :=
  ds.foldl (fun a c => a * 10 + (c.toNat - 48)) acc

/-- The input does not start with a decimal digit (used to delimit number
tokens). -/
def headNotDig (cs : List Char) : Prop :=
  ∀ d ds, cs = d :: ds → isDig d = false

/-- Atomic JSON values occurring in the log records: strings and non-negative
integers. -/
inductive JVal where
  | str (s : String)
  | int (n : Nat)
  deriving DecidableEq, Repr

/-- A parsed JSON object: its member list in textual order. -/
def JObj : Type := List (String × JVal)

/-- Parse an atomic JSON value (string literal or integer). -/
def parseValue : List Char → Option (JVal × List Char)
  | [] => none
  | c :: rest =>
    if c = '"' then
      (parseStringBody rest).map fun p => (JVal.str (String.mk p.1), p.2)
    else
      (parseNumTok (c :: rest)).map fun p => (JVal.int p.1, p.2)

/-- Parse one object member: a key string, `:` (with surrounding JSON
whitespace), and an atomic value. -/
def parseMember : List Char → Option ((String × JVal) × List Char)
  | [] => none
  | c :: rest =>
    if c = '"' then
      match parseStringBody rest with
      | some (k, r₁) =>
        match skipWs r₁ with
        | [] => none
        | c₂ :: r₂ =>
          if c₂ = ':' then
            match parseValue (skipWs r₂) with
            | some (v, r₃) => some ((String.mk k, v), r₃)
            | none => none
          else none
      | none => none
    else none

/-- After the first member of an object: repeatedly `, member`, until `}`. -/
def parseMembersRest (fuel : Nat) (cs : List Char) : Option (List (String × JVal) × List Char) :=
  match skipWs cs with
  | [] => none
  | c :: rest =>
    if c = '}' then some ([], rest)
    else if c = ',' then
      match fuel with
      | 0 => none
      | fuel' + 1 =>
        match parseMember (skipWs rest) with
        | some (m, r₁) =>
          match parseMembersRest fuel' r₁ with
          | some (ms, r₂) => some (m :: ms, r₂)
          | none => none
        | none => none
    else none

/-- Parse a JSON object `{ members }` with atomic member values. -/
def parseObj (fuel : Nat) : List Char → Option (JObj × List Char)
  | [] => none
  | c :: rest =>
    if c = '{' then
      match skipWs rest with
      | [] => none
      | c₂ :: r₂ =>
        if c₂ = '}' then some ([], r₂)
        else
          match parseMember (c₂ :: r₂) with
          | some (m, r₃) =>
            match parseMembersRest fuel r₃ with
            | some (ms, r₄) => some (m :: ms, r₄)
            | none => none
          | none => none
    else none

/-- After the first element of an array of objects: repeatedly `, object`,
until `]`. -/
def parseElemsRest (fuel : Nat) (cs : List Char) : Option (List JObj × List Char) :=
  match skipWs cs with
  | [] => none
  | c :: rest =>
    if c = ']' then some ([], rest)
    else if c = ',' then
      match fuel with
      | 0 => none
      | fuel' + 1 =>
        match parseObj fuel' (skipWs rest) with
        | some (o, r₁) =>
          match parseElemsRest fuel' r₁ with
          | some (os, r₂) => some (o :: os, r₂)
          | none => none
        | none => none
    else none

/-- Parse a complete text as a JSON array of objects: optional whitespace, the
array, optional whitespace, end of input.  `none` when the text is not such a
JSON document. -/
def parseJsonArrayOfObjects (s : String) : Option (List JObj) :=
  match skipWs s.data with
  | [] => none
  | c :: rest =>
    if c = '[' then
      match skipWs rest with
      | [] => none
      | c₂ :: r₂ =>
        if c₂ = ']' then if skipWs r₂ = [] then some [] else none
        else
          match parseObj s.data.length (c₂ :: r₂) with
          | some (o, r₃) =>
            match parseElemsRest s.data.length r₃ with
            | some (os, r₄) => if skipWs r₄ = [] then some (o :: os) else none
            | none => none
          | none => none
    else none

/-- Parse a complete text as one JSON object. -/
def parseJsonObject (s : String) : Option JObj :=
  match parseObj s.data.length (skipWs s.data) with
  | some (o, r) => if skipWs r = [] then some o else none
  | none => none

/-- Parse a complete text as one JSON string literal (used to state that an
escaped message decodes back to the original). -/
def decodeJsonString (s : String) : Option String :=
  match s.data with
  | [] => none
  | c :: rest =>
    if c = '"' then
      match parseStringBody rest with
      | some (l, r) => if r = [] then some (String.mk l) else none
      | none => none
    else none

/-! ## The log record and broken-down UTC time

`LogRecord` models the `logging.LogRecord` fields the module reads:
`levelno`, `levelname`, `module`, `funcName`, `lineno`, `getMessage()`,
`msecs`, and the broken-down UTC form of `record.created` that
`datetime.fromtimestamp(record.created).astimezone(timezone.utc)` yields
(the epoch-to-calendar conversion is the `datetime` collaborator). -/

structure UTCTime where
  year : Nat
  month : Nat
  day : Nat
  hour : Nat
  minute : Nat
  second : Nat
  microsecond : Nat

structure LogRecord where
  levelno : Nat
  levelname : String
  module : String
  funcName : String
  lineno : Nat
  message : String
  created : UTCTime
  msecs : Nat

/-- Output of `strftime` for `%Y-%m-%d` (zero-padded fields). -/
def dateChars (t : UTCTime) : List Char :=
  padNum 4 t.year ++ ('-' :: padNum 2 t.month) ++ ('-' :: padNum 2 t.day)

/-- Output of `strftime` for `%H:%M:%S`. -/
def hmsChars (t : UTCTime) : List Char :=
  padNum 2 t.hour ++ (':' :: padNum 2 t.minute) ++ (':' :: padNum 2 t.second)

/-- Output of `strftime` for `%Y-%m-%d %H:%M:%S` (the console `date_format`). -/
def formatAscChars (t : UTCTime) : List Char := dateChars t ++ (' ' :: hmsChars t)

/-- Output of `strftime` for `%Y-%m-%d %H:%M:%S.%f` (the JSON timestamp format). -/
def formatMicroChars (t : UTCTime) : List Char :=
  formatAscChars t ++ ('.' :: padNum 6 t.microsecond)

/-! ## JSONFormatter

Embedding of `JSONFormatter.format`: `json.dumps` (default separators,
`ensure_ascii=False`) applied to the dict literal of the six fields, and of
`JSONFormatter.formatTime` applied at the `"%Y-%m-%d %H:%M:%S.%f"` format
`format` passes it. -/

namespace JSONFormatter

/-- Embedding of `JSONFormatter.formatTime` at the date format used by `format`. -/
def formatTime (r : LogRecord) : String := String.mk (formatMicroChars r.created)

end JSONFormatter

/-- One `"key": value` member as `json.dumps` writes it (key escaped, one
space after the colon — the default `': '` key separator). -/
def memChars (k : String) (v : List Char) : List Char :=
  encStrChars k ++ (':' :: ' ' :: v)

/-- The full `json.dumps` output of the `log_record` dict built by
`JSONFormatter.format`: braces, the six members in insertion order, `', '`
between members. -/
def jsonFormatChars (r : LogRecord) : List Char :=
  '{' :: (memChars "timestamp" (encStrChars (JSONFormatter.formatTime r)) ++
    (',' :: ' ' :: (memChars "level" (encStrChars r.levelname) ++
    (',' :: ' ' :: (memChars "module" (encStrChars r.module) ++
    (',' :: ' ' :: (memChars "function" (encStrChars r.funcName) ++
    (',' :: ' ' :: (memChars "line" (natToChars r.lineno) ++
    (',' :: ' ' :: (memChars "message" (encStrChars r.message) ++ ['}'])))))))))))

namespace JSONFormatter

/-- Embedding of `JSONFormatter.format`: the record rendered as a single-line JSON object
string. -/
def format (r : LogRecord) : String := String.mk (jsonFormatChars r)

end JSONFormatter

/-- The JSON object (member list) the six fields denote — what a JSON parse
of one formatted record is expected to return. -/
def logObj (r : LogRecord) : JObj :=
  [("timestamp", JVal.str (JSONFormatter.formatTime r)),
   ("level", JVal.str r.levelname),
   ("module", JVal.str r.module),
   ("function", JVal.str r.funcName),
   ("line", JVal.int r.lineno),
   ("message", JVal.str r.message)]

/-! ## JSONFileHandler

The handler's observable state: the characters written to the file so far and
the `_first_log` flag.  `init` models `__init__` against a file whose current
content is `initial` (`_first_log` is true iff the file is absent/empty);
`emit` and `close` append exactly what the stream writes. -/

structure HState where
  content : String
  first_log : Bool

namespace JSONFileHandler

/-- Embedding of `__init__`: open (append mode, so content is kept) and set `_first_log`
from the current file state. -/
def init (initial : String) : HState := ⟨initial, initial.isEmpty⟩

/-- Embedding of `emit`: `[\n` before the first record, `,\n` before every other one, then
the `JSONFormatter`-formatted record. -/
def emit (s : HState) (r : LogRecord) : HState :=
  if s.first_log then ⟨s.content ++ "[\n" ++ JSONFormatter.format r, false⟩
  else ⟨s.content ++ ",\n" ++ JSONFormatter.format r, s.first_log⟩

/-- Embedding of `close`: terminate the array with `\n]\n` unless `_first_log` is still
set; the result is the final file content. -/
def close (s : HState) : String :=
  if s.first_log then s.content else s.content ++ "\n]\n"

/-- A sequence of `emit` calls. -/
def runEmits (evs : List LogRecord) (s : HState) : HState := evs.foldl emit s

/-- A whole session against a fresh/empty file: open, emit each record,
close. -/
def runSession (evs : List LogRecord) : String := close (runEmits evs (init ""))

end JSONFileHandler

/-! ## CustomFormatter

Embedding of the colored console formatter: the ANSI color constants, the
`log_format`/`date_format` strings, the level→format dict, and the `%`-style
template substitution `logging.Formatter` performs on them (`fmt % values`
for the `%(name)spec` directives, with `None` falling back to the default
`"%(message)s"` style). -/

namespace CustomFormatter

def grey : String := "\x1b[38;20m"
def yellow : String := "\x1b[33;20m"
def red : String := "\x1b[31;20m"
def bold_red : String := "\x1b[31;1m"
def reset : String := "\x1b[0m"

def log_format : String :=
  "%(asctime)s.%(msecs)03d || %(levelname)-8s || %(module)s:%(funcName)s:%(lineno)d || %(message)s"

def date_format : String := "%Y-%m-%d %H:%M:%S"

/-- The `FORMATS` dict: level number → colored format string.  Levels are the
`logging` constants `DEBUG=10, INFO=20, WARNING=30, ERROR=40, CRITICAL=50`. -/
def FORMATS : List (Nat × String) :=
  [(10, grey ++ log_format ++ reset),
   (20, grey ++ log_format ++ reset),
   (30, yellow ++ log_format ++ reset),
   (40, red ++ log_format ++ reset),
   (50, bold_red ++ log_format ++ reset)]

end CustomFormatter

/-- The value of a record attribute interpolated by a `%` directive. -/
inductive PVal where
  | str (s : String)
  | num (n : Nat)

/-- Record attribute lookup for the directive names the templates use
(`record.__dict__` access in `PercentStyle.format`); `asctime` is produced by
`Formatter.formatTime` at `date_format`. -/
def recordField (r : LogRecord) (nm : String) : Option PVal :=
  if nm = "asctime" then some (PVal.str (String.mk (formatAscChars r.created)))
  else if nm = "msecs" then some (PVal.num r.msecs)
  else if nm = "levelname" then some (PVal.str r.levelname)
  else if nm = "module" then some (PVal.str r.module)
  else if nm = "funcName" then some (PVal.str r.funcName)
  else if nm = "lineno" then some (PVal.num r.lineno)
  else if nm = "message" then some (PVal.str r.message)
  else none

/-- Right padding (`%-Ns`, left justification). -/
def padRight (fill : Char) (width : Nat) (l : List Char) : List Char :=
  l ++ List.replicate (width - l.length) fill

/-- Conversion flags of `%`: `-` (left justify) and `0` (zero pad). -/
def readFlags : List Char → Bool → Bool → Bool × Bool × List Char
  | '-' :: rest, _, z => readFlags rest true z
  | '0' :: rest, l, _ => readFlags rest l true
  | cs, l, z => (l, z, cs)

/-- Minimum field width of a `%` conversion. -/
def readWidth : List Char → Nat → Nat × List Char
  | c :: rest, acc =>
    if isDig c then readWidth rest (acc * 10 + (c.toNat - 48)) else (acc, c :: rest)
  | [], acc => (acc, [])

/-- Apply one conversion (`s` or `d`) with its flags and width to a value, as
Python `%` formatting does for the directives in scope: strings pad with
spaces, numbers with spaces or zeros, `-` left-justifies. -/
def applyConv (v : PVal) (leftJust zeroPad : Bool) (width : Nat) (conv : Char) :
    Option (List Char) :=
  if conv = 's' then
    let base := match v with
      | PVal.str s => s.data
      | PVal.num n => natToChars n
    some (if leftJust then padRight ' ' width base else padLeft ' ' width base)
  else if conv = 'd' then
    match v with
    | PVal.num n =>
      some (if leftJust then padRight ' ' width (natToChars n)
        else if zeroPad then padLeft '0' width (natToChars n)
        else padLeft ' ' width (natToChars n))
    | PVal.str _ => none
  else none

/-- Format one `%(name)flags-width-conv` directive against a record. -/
def formatField (r : LogRecord) (nm : List Char) (spec : List Char) (conv : Char) :
    Option (List Char) :=
  match recordField r (String.mk nm) with
  | none => none
  | some v =>
    match readFlags spec false false with
    | (lj, zp, r₁) =>
      match readWidth r₁ 0 with
      | (w, r₂) =>
        match r₂ with
        | [] => applyConv v lj zp w conv
        | _ :: _ => none

/-- Scanner state of the `%`-template engine: literal text, inside `%(name`,
or inside the conversion spec after `)`. -/
inductive PMode where
  | lit
  | name (acc : List Char)
  | spec (nm : List Char) (acc : List Char)

/-- The `%`-template engine: substitutes each `%(name)spec` directive by the
formatted record attribute and copies every other character. -/
def pctAux (r : LogRecord) : PMode → List Char → Option (List Char)
  | PMode.lit, [] => some []
  | PMode.lit, '%' :: '(' :: rest => pctAux r (PMode.name []) rest
  | PMode.lit, c :: rest =>
    if c = '%' then none else (pctAux r PMode.lit rest).map (c :: ·)
  | PMode.name _, [] => none
  | PMode.name acc, c :: rest =>
    if c = ')' then pctAux r (PMode.spec acc.reverse []) rest
    else pctAux r (PMode.name (c :: acc)) rest
  | PMode.spec _ _, [] => none
  | PMode.spec nm acc, c :: rest =>
    if c = 's' ∨ c = 'd' then
      match formatField r nm acc.reverse c with
      | some out => (pctAux r PMode.lit rest).map (out ++ ·)
      | none => none
    else pctAux r (PMode.spec nm (c :: acc)) rest

/-- Substitution `fmt % record` for a whole template string. -/
def percentFormat (fmt : String) (r : LogRecord) : Option String :=
  (pctAux r PMode.lit fmt.data).map String.mk

/-- Embedding of `logging.Formatter(fmt=...).format(record)`: a `None` format falls back
to the default `"%(message)s"` style. -/
def pyFormatterFormat (fmt : Option String) (r : LogRecord) : Option String :=
  percentFormat (fmt.getD "%(message)s") r

namespace CustomFormatter

/-- Embedding of `CustomFormatter.format`: look the level up in `FORMATS` (`dict.get`,
`None` when absent) and format with a `logging.Formatter` built from that
format string and `date_format`. -/
def format (r : LogRecord) : Option String :=
  pyFormatterFormat (FORMATS.lookup r.levelno) r

end CustomFormatter

/-! ## setup_logging

The root logger is modelled by its level and handler list; `setup_logging`
clears the handlers, sets the level, attaches a console handler and, when
`log_to_file` is set, a `JSONFileHandler` whose filename is built from
`sys.argv[0].split('/')[-1]` and the current UTC time formatted
`%Y-%m-%d_%H-%M-%S`. -/

inductive Handler where
  | console (level : Nat)
  | file (filename : String) (level : Nat)
  deriving DecidableEq

structure RootLogger where
  level : Nat
  handlers : List Handler
  deriving DecidableEq

/-- Python `str.split('/')`: split on every slash, keeping empty pieces. -/
def splitSlash : List Char → List (List Char)
  | [] => [[]]
  | c :: rest =>
    if c = '/' then [] :: splitSlash rest
    else
      match splitSlash rest with
      | [] => [[c]]
      | g :: gs => (c :: g) :: gs

/-- Indexing `[-1]` on a split result: its last group (split results are
never empty). -/
def lastPart : List (List Char) → List Char
  | [] => []
  | [g] => g
  | _ :: g :: gs => lastPart (g :: gs)

/-- Embedding of `sys.argv[0].split(sep='/')[-1]`: the program's base name. -/
def basenameOf (argv0 : String) : String :=
  String.mk (lastPart (splitSlash argv0.data))

/-- Output of `strftime` for `%Y-%m-%d_%H-%M-%S`. -/
def fileTimestampChars (t : UTCTime) : List Char :=
  dateChars t ++ ('_' :: (padNum 2 t.hour ++ ('-' :: padNum 2 t.minute) ++ ('-' :: padNum 2 t.second)))

/-- The file name `setup_logging` passes to `JSONFileHandler`:
`f"logs/{sys.argv[0].split(sep='/')[-1]}_{dt}_UTC.json"`. -/
def logFileName (argv0 : String) (now : UTCTime) : String :=
  "logs/" ++ basenameOf argv0 ++ "_" ++ String.mk (fileTimestampChars now) ++ "_UTC.json"

/-- Embedding of `setup_logging(log_to_file, log_level)` run against the current root
logger state, the invoking program path and the current UTC time. -/
def setup_logging (log_to_file : Bool) (log_level : Nat) (argv0 : String)
    (now : UTCTime) (_lg : RootLogger) : RootLogger :=
  let cleared : RootLogger := ⟨log_level, []⟩
  let withConsole : RootLogger := ⟨cleared.level, cleared.handlers ++ [Handler.console log_level]⟩
  if log_to_file then
    ⟨withConsole.level,
     withConsole.handlers ++ [Handler.file (logFileName argv0 now) log_level]⟩
  else withConsole

/-- Console handler count of a handler list. -/
def countConsole (hs : List Handler) : Nat :=
  (hs.filter fun h => match h with | Handler.console _ => true | _ => false).length

/-- File handler count of a handler list. -/
def countFile (hs : List Handler) : Nat :=
  (hs.filter fun h => match h with | Handler.file _ _ => true | _ => false).length

/-- The file names of the attached file handlers, in order. -/
def fileNames (hs : List Handler) : List String :=
  hs.filterMap fun h => match h with
    | Handler.file fn _ => some fn
    | _ => none

/-- The characters `emit` appends for every record after the first:
separator `,\n` then the formatted record. -/
def sepElems (evs : List LogRecord) : List Char :=
  evs.flatMap fun e => ',' :: '\n' :: jsonFormatChars e

/-- Pieces joined by a separator (claim-side: "records separated by `,\n`"). -/
def sepBy (sep : List Char) : List (List Char) → List Char
  | [] => []
  | x :: xs => x ++ xs.flatMap fun y => sep ++ y

/-- Concrete sample time for witnesses. -/
def sampleTime : UTCTime := ⟨2026, 1, 2, 3, 4, 5, 123456⟩

/-- Concrete sample record for witnesses. -/
def sampleRec : LogRecord := ⟨20, "INFO", "main", "run", 42, "hello", sampleTime, 123⟩

/-- Concrete sample record whose message holds a quote, a backslash and a
newline. -/
def sampleRec2 : LogRecord := ⟨40, "ERROR", "main", "run", 43, "a\"b\\c\nd", sampleTime, 124⟩

/-- The console line of the claim: `<timestamp>.<msec> || <LEVEL padded to 8
chars> || <module>:<function>:<line> || <message>` (claim-side statement of
the template's output). -/
def consoleLineChars (r : LogRecord) : List Char :=
  formatAscChars r.created ++ ('.' :: (padNum 3 r.msecs ++
    (' ' :: '|' :: '|' :: ' ' :: (padRight ' ' 8 r.levelname.data ++
    (' ' :: '|' :: '|' :: ' ' :: (r.module.data ++
    (':' :: (r.funcName.data ++
    (':' :: (natToChars r.lineno ++
    (' ' :: '|' :: '|' :: ' ' :: r.message.data)))))))))))

/-- The color the claim assigns to each defined severity. -/
def levelColor (lvl : Nat) : String :=
  if lvl = 30 then CustomFormatter.yellow
  else if lvl = 40 then CustomFormatter.red
  else if lvl = 50 then CustomFormatter.bold_red
  else CustomFormatter.grey

/-- Concrete sample record at a level outside the five defined ones. -/
def sampleRec3 : LogRecord := ⟨25, "Level 25", "main", "run", 44, "odd", sampleTime, 125⟩

/-! ## JSON string escaping

Embedding of the escaping CPython's `json.dumps(..., ensure_ascii=False)`
applies to every string it serializes (`json.encoder.py_encode_basestring`):
backslash, double quote and the five short control escapes get two-character
escapes, the remaining control characters below `0x20` get `\u00XX`, and every
other character is emitted verbatim. -/

/-! ## Spec-side JSON parsing

A recursive-descent parser for the JSON fragment the claims speak about:
strings with the standard escapes, non-negative integers without leading
zeros, flat objects, and arrays of such objects, with JSON whitespace between
tokens.  It accepts only texts in this JSON fragment, so acceptance implies
the text is valid JSON; it is the formalisation of "parses as JSON" used by
the claims about the file sink and the JSON formatter. -/

/-! ### Round-trip lemmas: the serialized text parses back to its source -/

theorem hexVal_hexDigit : ∀ m, m < 16 → hexVal (hexDigit m) = some m := by decide

theorem escBody_cons (c : Char) (l : List Char) :
    escBody (c :: l) = escCharL c ++ escBody l := by simp [escBody]

theorem parseStringBody_escBody (l : List Char) (rest : List Char) :
    parseStringBody (escBody l ++ '"' :: rest) = some (l, rest) := by
  induction l with
  | nil =>
    rw [show escBody [] = [] from rfl]
    rw [parseStringBody.eq_def]
    simp
  | cons c l ih =>
    rw [escBody_cons]
    by_cases h1 : c = '\\'
    · subst h1
      simp +decide only [escCharL, if_pos, List.cons_append, List.append_assoc]
      rw [parseStringBody.eq_def]
      simp +decide [ih]
    · by_cases h2 : c = '"'
      · subst h2
        simp +decide only [escCharL, if_pos, if_neg, List.cons_append, List.append_assoc]
        rw [parseStringBody.eq_def]
        simp +decide [ih]
      · by_cases h3 : c = '\n'
        · subst h3
          simp +decide only [escCharL, if_pos, if_neg, List.cons_append, List.append_assoc]
          rw [parseStringBody.eq_def]
          simp +decide [ih]
        · by_cases h4 : c = '\r'
          · subst h4
            simp +decide only [escCharL, if_pos, if_neg, List.cons_append, List.append_assoc]
            rw [parseStringBody.eq_def]
            simp +decide [ih]
          · by_cases h5 : c = '\t'
            · subst h5
              simp +decide only [escCharL, if_pos, if_neg, List.cons_append, List.append_assoc]
              rw [parseStringBody.eq_def]
              simp +decide [ih]
            · by_cases h6 : c.toNat = 8
              · have hc : Char.ofNat 8 = c := by rw [← h6, Char.ofNat_toNat]
                simp only [escCharL, h1, h2, h3, h4, h5, h6, if_true, if_false,
                  if_pos, if_neg, not_false_iff, List.cons_append, List.append_assoc]
                rw [parseStringBody.eq_def]
                simp +decide [ih]
                exact hc
              · by_cases h7 : c.toNat = 12
                · have hc : Char.ofNat 12 = c := by rw [← h7, Char.ofNat_toNat]
                  simp only [escCharL, h1, h2, h3, h4, h5, h6, h7, if_true, if_false,
                    if_pos, if_neg, not_false_iff, List.cons_append, List.append_assoc]
                  rw [parseStringBody.eq_def]
                  simp +decide [ih]
                  exact hc
                · by_cases h8 : c.toNat < 32
                  · have h16a : c.toNat / 4096 % 16 = 0 := by omega
                    have h16b : c.toNat / 256 % 16 = 0 := by omega
                    have hx0 : hexVal (hexDigit 0) = some 0 := by decide
                    have hx3 : hexVal (hexDigit (c.toNat / 16 % 16)) =
                        some (c.toNat / 16 % 16) := hexVal_hexDigit _ (by omega)
                    have hx4 : hexVal (hexDigit (c.toNat % 16)) =
                        some (c.toNat % 16) := hexVal_hexDigit _ (by omega)
                    have hlt : c.toNat / 16 % 16 * 16 + c.toNat % 16 < 55296 := by omega
                    have he : c.toNat / 16 % 16 * 16 + c.toNat % 16 = c.toNat := by omega
                    have hc : Char.ofNat c.toNat = c := Char.ofNat_toNat c
                    simp only [escCharL, h1, h2, h3, h4, h5, h6, h7, h8, if_true, if_false,
                      if_pos, if_neg, not_false_iff, toHex4, h16a, h16b,
                      List.cons_append, List.append_assoc]
                    rw [parseStringBody.eq_def]
                    simp +decide [hx0, hx3, hx4, hlt, he, hc, ih]
                    omega
                  · have h32 : 32 ≤ c.toNat := Nat.not_lt.mp h8
                    simp only [escCharL, h1, h2, h3, h4, h5, h6, h7, h8, if_true, if_false,
                      if_pos, if_neg, not_false_iff, List.cons_append, List.append_assoc]
                    rw [parseStringBody.eq_def]
                    simp +decide [h1, h2, h32, ih]

theorem isDig_digitChar : ∀ m, m < 10 → isDig (digitChar m) = true := by decide

theorem toNat_digitChar : ∀ m, m < 10 → (digitChar m).toNat = 48 + m := by decide

theorem digitChar_ne_zero : ∀ m, m < 10 → 0 < m → digitChar m ≠ '0' := by decide

theorem natToCharsAux_digits :
    ∀ fuel n, n < fuel → ∀ c ∈ natToCharsAux fuel n, isDig c = true := by
  intro fuel
  induction fuel with
  | zero => intro n h; omega
  | succ fuel ih =>
    intro n h c hc
    rw [natToCharsAux] at hc
    by_cases h10 : n < 10
    · rw [if_pos h10] at hc
      simp at hc
      subst hc
      exact isDig_digitChar n h10
    · rw [if_neg h10] at hc
      rcases List.mem_append.mp hc with h1 | h1
      · exact ih (n / 10) (by omega) c h1
      · simp at h1
        subst h1
        exact isDig_digitChar _ (by omega)

theorem natToCharsAux_foldDig :
    ∀ fuel n acc, n < fuel →
      foldDig acc (natToCharsAux fuel n) =
        acc * 10 ^ (natToCharsAux fuel n).length + n := by
  intro fuel
  induction fuel with
  | zero => intro n acc h; omega
  | succ fuel ih =>
    intro n acc h
    rw [natToCharsAux]
    by_cases h10 : n < 10
    · rw [if_pos h10]
      simp [foldDig, toNat_digitChar n h10]
    · rw [if_neg h10]
      have hdiv : n / 10 < fuel := by omega
      have := ih (n / 10) acc hdiv
      simp only [foldDig] at this ⊢
      rw [List.foldl_append, this]
      simp [toNat_digitChar (n % 10) (by omega), List.length_append]
      ring_nf
      omega

theorem natToCharsAux_head :
    ∀ fuel n, n < fuel →
      ∃ d ds, natToCharsAux fuel n = d :: ds ∧ (0 < n → d ≠ '0') := by
  intro fuel
  induction fuel with
  | zero => intro n h; omega
  | succ fuel ih =>
    intro n h
    rw [natToCharsAux]
    by_cases h10 : n < 10
    · rw [if_pos h10]
      exact ⟨digitChar n, [], rfl, fun hpos => digitChar_ne_zero n h10 hpos⟩
    · rw [if_neg h10]
      obtain ⟨d, ds, heq, hne⟩ := ih (n / 10) (by omega)
      exact ⟨d, ds ++ [digitChar (n % 10)], by rw [heq]; simp,
        fun _ => hne (by omega)⟩

theorem parseDigitsAcc_append (ds : List Char) :
    ∀ rest acc, (∀ c ∈ ds, isDig c = true) →
      parseDigitsAcc (ds ++ rest) acc = parseDigitsAcc rest (foldDig acc ds) := by
  induction ds with
  | nil => intro rest acc h; simp [foldDig]
  | cons c ds ih =>
    intro rest acc h
    have hc : isDig c = true := h c (by simp)
    rw [List.cons_append, parseDigitsAcc, if_pos hc, ih rest _ (fun x hx => h x (by simp [hx]))]
    simp [foldDig]

theorem parseDigitsAcc_stop (rest : List Char) (acc : Nat) (h : headNotDig rest) :
    parseDigitsAcc rest acc = (acc, rest) := by
  cases rest with
  | nil => rw [parseDigitsAcc]
  | cons c cs =>
    rw [parseDigitsAcc, if_neg]
    simp [h c cs rfl]

theorem parseNumTok_natToChars (n : Nat) (rest : List Char) (h : headNotDig rest) :
    parseNumTok (natToChars n ++ rest) = some (n, rest) := by
  by_cases h0 : n = 0
  · subst h0
    have : natToChars 0 = ['0'] := by decide
    rw [this]
    cases rest with
    | nil => simp [parseNumTok]
    | cons d ds =>
      have hd : isDig d = false := h d ds rfl
      simp [parseNumTok, hd]
  · obtain ⟨d, ds, heq, hne⟩ := natToCharsAux_head (n + 1) n (by omega)
    have hdigits := natToCharsAux_digits (n + 1) n (by omega)
    have hfold := natToCharsAux_foldDig (n + 1) n 0 (by omega)
    rw [natToChars, heq] at *
    have hd : isDig d = true := hdigits d (by simp)
    have hdne : d ≠ '0' := hne (by omega)
    rw [List.cons_append, parseNumTok.eq_def]
    simp only [if_neg hdne, if_pos hd]
    rw [parseDigitsAcc_append ds rest _ (fun c hc => hdigits c (by simp [hc]))]
    rw [parseDigitsAcc_stop rest _ h]
    simp only [foldDig, List.foldl_cons, List.foldl_nil] at hfold ⊢
    simp at hfold
    simp [hfold]

/-! ### Member- and object-level round-trip lemmas -/

theorem mkData (s : String) : String.mk s.data = s := rfl

theorem skipWs_nil : skipWs [] = [] := rfl

theorem skipWs_not (c : Char) (rest : List Char) (h : isWsChar c = false) :
    skipWs (c :: rest) = c :: rest := by rw [skipWs, if_neg (by simp [h])]

theorem skipWs_ws (c : Char) (rest : List Char) (h : isWsChar c = true) :
    skipWs (c :: rest) = skipWs rest := by rw [skipWs, if_pos h]

theorem headNotDig_comma (t : List Char) : headNotDig (',' :: t) := by
  intro d ds h
  cases h
  decide

theorem headNotDig_brace (t : List Char) : headNotDig ('}' :: t) := by
  intro d ds h
  cases h
  decide

theorem parseValue_str (v : String) (rest : List Char) :
    parseValue ('"' :: (escBody v.data ++ ('"' :: rest))) = some (JVal.str v, rest) := by
  rw [parseValue.eq_def]
  simp [parseStringBody_escBody, mkData]

theorem parseValue_nat (n : Nat) (rest : List Char) (h : headNotDig rest) :
    parseValue (natToChars n ++ rest) = some (JVal.int n, rest) := by
  obtain ⟨d, ds, heq, -⟩ := natToCharsAux_head (n + 1) n (by omega)
  have hds : natToChars n = d :: ds := heq
  have hd : isDig d = true := natToCharsAux_digits (n + 1) n (by omega) d (by rw [heq]; simp)
  have hdq : d ≠ '"' := by
    intro hq
    subst hq
    exact absurd hd (by decide)
  have hnum := parseNumTok_natToChars n rest h
  rw [hds] at hnum ⊢
  rw [List.cons_append, parseValue.eq_def]
  simp only [if_neg hdq]
  rw [List.cons_append] at hnum
  simp [hnum]

theorem parseMember_str (k v : String) (rest : List Char) :
    parseMember ('"' :: (escBody k.data ++ ('"' :: (':' :: (' ' :: ('"' ::
        (escBody v.data ++ ('"' :: rest)))))))) = some ((k, JVal.str v), rest) := by
  rw [parseMember.eq_def]
  simp only [if_pos rfl, parseStringBody_escBody]
  rw [skipWs_not ':' _ (by decide)]
  simp only [if_pos rfl]
  rw [skipWs_ws ' ' _ (by decide), skipWs_not '"' _ (by decide)]
  rw [parseValue_str]
  simp [mkData]

theorem parseMember_nat (k : String) (n : Nat) (rest : List Char) (h : headNotDig rest) :
    parseMember ('"' :: (escBody k.data ++ ('"' :: (':' :: (' ' ::
        (natToChars n ++ rest)))))) = some ((k, JVal.int n), rest) := by
  obtain ⟨d, ds, heq, -⟩ := natToCharsAux_head (n + 1) n (by omega)
  have hds : natToChars n = d :: ds := heq
  have hd : isDig d = true := natToCharsAux_digits (n + 1) n (by omega) d (by rw [heq]; simp)
  have hdw : isWsChar d = false := by
    simp only [isWsChar, Bool.or_eq_false_iff, decide_eq_false_iff_not]
    refine ⟨⟨⟨?_, ?_⟩, ?_⟩, ?_⟩ <;> (intro hc; subst hc; exact absurd hd (by decide))
  rw [parseMember.eq_def]
  simp only [if_pos rfl, parseStringBody_escBody]
  rw [skipWs_not ':' _ (by decide)]
  simp only [if_pos rfl]
  rw [skipWs_ws ' ' _ (by decide)]
  rw [hds, List.cons_append, skipWs_not d _ hdw, ← List.cons_append, ← hds]
  rw [parseValue_nat n rest h]
  simp [mkData]

theorem parseMembersRest_close (fuel : Nat) (rest : List Char) :
    parseMembersRest fuel ('}' :: rest) = some ([], rest) := by
  rw [parseMembersRest, skipWs_not '}' _ (by decide)]
  simp

theorem parseMembersRest_step (f : Nat) (t r₁ r₂ : List Char)
    (m : String × JVal) (ms : List (String × JVal))
    (h₁ : parseMember ('"' :: t) = some (m, r₁))
    (h₂ : parseMembersRest f r₁ = some (ms, r₂)) :
    parseMembersRest (f + 1) (',' :: (' ' :: ('"' :: t))) = some (m :: ms, r₂) := by
  rw [parseMembersRest, skipWs_not ',' _ (by decide)]
  simp only [if_neg (by decide : ¬(',' : Char) = '}'), if_pos rfl]
  rw [skipWs_ws ' ' _ (by decide), skipWs_not '"' _ (by decide), h₁]
  simp [h₂]

theorem parseObj_start (f : Nat) (t r₃ r₄ : List Char)
    (m : String × JVal) (ms : List (String × JVal))
    (h₁ : parseMember ('"' :: t) = some (m, r₃))
    (h₂ : parseMembersRest f r₃ = some (ms, r₄)) :
    parseObj f ('{' :: ('"' :: t)) = some (m :: ms, r₄) := by
  rw [parseObj.eq_def]
  simp only [if_pos rfl]
  rw [skipWs_not '"' _ (by decide)]
  simp only [if_neg (by decide : ¬('"' : Char) = '}')]
  rw [h₁]
  simp [h₂]

theorem parseObj_jsonFormat (r : LogRecord) (f : Nat) (rest : List Char) :
    parseObj (f + 5) (jsonFormatChars r ++ rest) = some (logObj r, rest) := by
  simp only [jsonFormatChars, memChars, encStrChars, logObj,
    List.cons_append, List.append_assoc, List.nil_append]
  apply parseObj_start
  · exact parseMember_str "timestamp" (JSONFormatter.formatTime r) _
  have h5 : f + 5 = (f + 4) + 1 := by omega
  rw [h5]
  apply parseMembersRest_step
  · exact parseMember_str "level" r.levelname _
  have h4 : f + 4 = (f + 3) + 1 := by omega
  rw [h4]
  apply parseMembersRest_step
  · exact parseMember_str "module" r.module _
  have h3 : f + 3 = (f + 2) + 1 := by omega
  rw [h3]
  apply parseMembersRest_step
  · exact parseMember_str "function" r.funcName _
  have h2 : f + 2 = (f + 1) + 1 := by omega
  rw [h2]
  apply parseMembersRest_step
  · exact parseMember_nat "line" r.lineno _ (headNotDig_comma _)
  have h1 : f + 1 = f + 1 := rfl
  apply parseMembersRest_step
  · exact parseMember_str "message" r.message _
  exact parseMembersRest_close f rest

/-! ### Array-level round-trip and session content -/

theorem sepBy_map_jsonFormat (e : LogRecord) (tl : List LogRecord) :
    sepBy [',', '\n'] ((e :: tl).map jsonFormatChars) =
      jsonFormatChars e ++ sepElems tl := by
  simp [sepBy, sepElems, List.flatMap_map, Function.comp]

theorem skipWs_jsonFormat (r : LogRecord) (rest : List Char) :
    skipWs (jsonFormatChars r ++ rest) = jsonFormatChars r ++ rest := by
  rw [jsonFormatChars, List.cons_append, skipWs_not '{' _ (by decide)]

theorem jsonFormatChars_length_pos (r : LogRecord) :
    1 ≤ (jsonFormatChars r).length := by
  rw [jsonFormatChars]
  simp

theorem sepElems_length_ge (tl : List LogRecord) :
    tl.length ≤ (sepElems tl).length := by
  induction tl with
  | nil => simp [sepElems]
  | cons e tl ih =>
    simp only [sepElems, List.flatMap_cons] at ih ⊢
    simp only [List.length_append, List.length_cons]
    omega

theorem parseElemsRest_chunk (tl : List LogRecord) :
    ∀ (fuel : Nat) (rest : List Char), tl.length + 5 ≤ fuel →
      parseElemsRest fuel (sepElems tl ++ ('\n' :: ']' :: rest)) =
        some (tl.map logObj, rest) := by
  induction tl with
  | nil =>
    intro fuel rest _
    rw [show sepElems [] = [] from rfl, List.nil_append]
    rw [parseElemsRest, skipWs_ws '\n' _ (by decide), skipWs_not ']' _ (by decide)]
    simp
  | cons e tl ih =>
    intro fuel rest hfuel
    obtain ⟨f, rfl⟩ : ∃ f, fuel = f + 1 := ⟨fuel - 1, by omega⟩
    rw [show sepElems (e :: tl) = ',' :: '\n' :: (jsonFormatChars e ++ sepElems tl)
        from by simp [sepElems]]
    rw [show (',' :: '\n' :: (jsonFormatChars e ++ sepElems tl)) ++ ('\n' :: ']' :: rest) =
        ',' :: '\n' :: (jsonFormatChars e ++ (sepElems tl ++ ('\n' :: ']' :: rest)))
        from by simp [List.append_assoc]]
    rw [parseElemsRest, skipWs_not ',' _ (by decide)]
    simp only [if_neg (by decide : ¬(',' : Char) = ']'), if_pos rfl]
    rw [skipWs_ws '\n' _ (by decide), skipWs_jsonFormat]
    obtain ⟨g, rfl⟩ : ∃ g, f = g + 5 := ⟨f - 5, by simp at hfuel; omega⟩
    rw [parseObj_jsonFormat e g _]
    simp [ih (g + 5) rest (by simp at hfuel ⊢; omega)]

theorem runEmits_content_false (evs : List LogRecord) :
    ∀ c : String, JSONFileHandler.runEmits evs ⟨c, false⟩ =
      ⟨String.mk (c.data ++ sepElems evs), false⟩ := by
  induction evs with
  | nil =>
    intro c
    show (⟨c, false⟩ : HState) = ⟨String.mk (c.data ++ sepElems []), false⟩
    rw [show sepElems [] = [] from rfl, List.append_nil, mkData]
  | cons r evs ih =>
    intro c
    rw [show JSONFileHandler.runEmits (r :: evs) ⟨c, false⟩ =
        JSONFileHandler.runEmits evs (JSONFileHandler.emit ⟨c, false⟩ r)
        from rfl]
    rw [show JSONFileHandler.emit ⟨c, false⟩ r =
        ⟨c ++ ",\n" ++ JSONFormatter.format r, false⟩
        from by simp [JSONFileHandler.emit]]
    rw [ih]
    have hdt : (c ++ ",\n" ++ JSONFormatter.format r).data ++ sepElems evs =
        c.data ++ sepElems (r :: evs) := by
      rw [String.data_append, String.data_append]
      simp [JSONFormatter.format, sepElems, List.append_assoc]
    rw [hdt]

theorem runSession_nil : JSONFileHandler.runSession [] = "" := rfl

theorem runSession_cons_data (e : LogRecord) (tl : List LogRecord) :
    (JSONFileHandler.runSession (e :: tl)).data =
      '[' :: '\n' ::
        (jsonFormatChars e ++ (sepElems tl ++ ('\n' :: ']' :: '\n' :: []))) := by
  rw [JSONFileHandler.runSession]
  rw [show JSONFileHandler.runEmits (e :: tl) (JSONFileHandler.init "") =
      JSONFileHandler.runEmits tl (JSONFileHandler.emit (JSONFileHandler.init "") e)
      from rfl]
  rw [show JSONFileHandler.emit (JSONFileHandler.init "") e =
      ⟨"" ++ "[\n" ++ JSONFormatter.format e, false⟩
      from by
        simp [JSONFileHandler.emit, JSONFileHandler.init,
          show "".isEmpty = true from rfl]]
  rw [runEmits_content_false]
  rw [show JSONFileHandler.close ⟨String.mk (("" ++ "[\n" ++ JSONFormatter.format e).data
      ++ sepElems tl), false⟩ =
      String.mk (("" ++ "[\n" ++ JSONFormatter.format e).data ++ sepElems tl) ++ "\n]\n"
      from by simp [JSONFileHandler.close]]
  rw [String.data_append, String.data_append, String.data_append]
  simp [JSONFormatter.format, List.append_assoc]

theorem jsonFormatChars_length_ge5 (r : LogRecord) :
    5 ≤ (jsonFormatChars r).length := by
  rw [jsonFormatChars, memChars, encStrChars]
  simp [List.length_append]
  omega

/-- Parsing any text of the shape the handler writes: `[\n`, a first record,
`,\n`-separated records, `\n]`, then arbitrary trailing characters `REST`.
The parse succeeds exactly when `REST` is whitespace-free-trailing (skips to
empty), and returns the records' objects in order. -/
theorem parseJson_session_shape (s : String) (e : LogRecord) (tl : List LogRecord)
    (REST : List Char)
    (hdata : s.data =
      '[' :: '\n' :: (jsonFormatChars e ++ (sepElems tl ++ ('\n' :: ']' :: REST)))) :
    parseJsonArrayOfObjects s =
      if skipWs REST = [] then some ((e :: tl).map logObj) else none := by
  have hlen : tl.length + 5 ≤ s.data.length := by
    rw [hdata]
    have h1 := jsonFormatChars_length_pos e
    have h2 := sepElems_length_ge tl
    simp [List.length_append]
    omega
  rw [parseJsonArrayOfObjects]
  set L := s.data.length with hL
  rw [hdata]
  rw [skipWs_not '[' _ (by decide)]
  simp only [if_pos rfl]
  rw [skipWs_ws '\n' _ (by decide), skipWs_jsonFormat]
  obtain ⟨t, ht⟩ : ∃ t, jsonFormatChars e ++ (sepElems tl ++ ('\n' :: ']' :: REST)) =
      '{' :: t := by
    rw [jsonFormatChars]
    exact ⟨_, List.cons_append _ _ _⟩
  rw [ht]
  simp only [if_neg (by decide : ¬('{' : Char) = ']')]
  rw [← ht]
  obtain ⟨g, hg⟩ : ∃ g, L = g + 5 := ⟨L - 5, by omega⟩
  rw [hg, parseObj_jsonFormat e g _]
  simp [parseElemsRest_chunk tl (g + 5) REST (by omega)]

theorem parseJsonObject_format (r : LogRecord) :
    parseJsonObject (JSONFormatter.format r) = some (logObj r) := by
  have hdata : (JSONFormatter.format r).data = jsonFormatChars r := rfl
  rw [parseJsonObject]
  set L := (JSONFormatter.format r).data.length with hL
  have hlen : 5 ≤ L := by rw [hL, hdata]; exact jsonFormatChars_length_ge5 r
  have hsk := skipWs_jsonFormat r []
  rw [List.append_nil] at hsk
  rw [hdata, hsk]
  obtain ⟨g, hg⟩ : ∃ g, L = g + 5 := ⟨L - 5, by omega⟩
  rw [hg]
  have hobj := parseObj_jsonFormat r g []
  rw [List.append_nil] at hobj
  rw [hobj]
  simp [skipWs_nil]

/-! ### The JSON formatter emits no raw newline (single-line records) -/

theorem escCharL_no_newline (c x : Char) (hx : x ∈ escCharL c) : x ≠ '\n' := by
  have hhex : ∀ m, m < 16 → hexDigit m ≠ '\n' := by decide
  rw [escCharL] at hx
  by_cases h1 : c = '\\'
  · rw [if_pos h1] at hx
    intro hxn
    subst hxn
    revert hx
    decide
  rw [if_neg h1] at hx
  by_cases h2 : c = '"'
  · rw [if_pos h2] at hx
    intro hxn
    subst hxn
    revert hx
    decide
  rw [if_neg h2] at hx
  by_cases h3 : c = '\n'
  · rw [if_pos h3] at hx
    intro hxn
    subst hxn
    revert hx
    decide
  rw [if_neg h3] at hx
  by_cases h4 : c = '\r'
  · rw [if_pos h4] at hx
    intro hxn
    subst hxn
    revert hx
    decide
  rw [if_neg h4] at hx
  by_cases h5 : c = '\t'
  · rw [if_pos h5] at hx
    intro hxn
    subst hxn
    revert hx
    decide
  rw [if_neg h5] at hx
  by_cases h6 : c.toNat = 8
  · rw [if_pos h6] at hx
    intro hxn
    subst hxn
    revert hx
    decide
  rw [if_neg h6] at hx
  by_cases h7 : c.toNat = 12
  · rw [if_pos h7] at hx
    intro hxn
    subst hxn
    revert hx
    decide
  rw [if_neg h7] at hx
  by_cases h8 : c.toNat < 32
  · rw [if_pos h8, toHex4] at hx
    intro hxn
    subst hxn
    rcases List.mem_cons.mp hx with h | h
    · exact absurd h (by decide)
    rcases List.mem_cons.mp h with h | h
    · exact absurd h (by decide)
    rcases List.mem_cons.mp h with h | h
    · exact hhex _ (by omega) h.symm
    rcases List.mem_cons.mp h with h | h
    · exact hhex _ (by omega) h.symm
    rcases List.mem_cons.mp h with h | h
    · exact hhex _ (by omega) h.symm
    rcases List.mem_cons.mp h with h | h
    · exact hhex _ (by omega) h.symm
    exact absurd h (by simp)
  · rw [if_neg h8] at hx
    rcases List.mem_cons.mp hx with h | h
    · subst h
      intro hc
      subst hc
      exact h8 (by decide)
    · exact absurd h (by simp)

theorem escBody_no_newline (l : List Char) : ¬('\n' ∈ escBody l) := by
  intro h
  rw [escBody] at h
  obtain ⟨c, -, hc⟩ := List.mem_flatMap.mp h
  exact escCharL_no_newline c '\n' hc rfl

theorem encStrChars_no_newline (s : String) : ¬('\n' ∈ encStrChars s) := by
  intro h
  rw [encStrChars] at h
  rcases List.mem_cons.mp h with h1 | h1
  · exact absurd h1 (by decide)
  rcases List.mem_append.mp h1 with h2 | h2
  · exact escBody_no_newline _ h2
  · exact absurd h2 (by simp)

theorem natToChars_no_newline (n : Nat) : ¬('\n' ∈ natToChars n) := by
  intro h
  have := natToCharsAux_digits (n + 1) n (by omega) '\n' h
  exact absurd this (by decide)

theorem memChars_str_no_newline (k v : String) : ¬('\n' ∈ memChars k (encStrChars v)) := by
  intro h
  rw [memChars] at h
  rcases List.mem_append.mp h with h1 | h1
  · exact encStrChars_no_newline k h1
  rcases List.mem_cons.mp h1 with h2 | h2
  · exact absurd h2 (by decide)
  rcases List.mem_cons.mp h2 with h3 | h3
  · exact absurd h3 (by decide)
  · exact encStrChars_no_newline v h3

theorem memChars_nat_no_newline (k : String) (n : Nat) :
    ¬('\n' ∈ memChars k (natToChars n)) := by
  intro h
  rw [memChars] at h
  rcases List.mem_append.mp h with h1 | h1
  · exact encStrChars_no_newline k h1
  rcases List.mem_cons.mp h1 with h2 | h2
  · exact absurd h2 (by decide)
  rcases List.mem_cons.mp h2 with h3 | h3
  · exact absurd h3 (by decide)
  · exact natToChars_no_newline n h3

theorem jsonFormatChars_no_newline (r : LogRecord) : ¬('\n' ∈ jsonFormatChars r) := by
  intro h
  rw [jsonFormatChars] at h
  rcases List.mem_cons.mp h with h | h
  · exact absurd h (by decide)
  rcases List.mem_append.mp h with h | h
  · exact memChars_str_no_newline _ _ h
  rcases List.mem_cons.mp h with h | h
  · exact absurd h (by decide)
  rcases List.mem_cons.mp h with h | h
  · exact absurd h (by decide)
  rcases List.mem_append.mp h with h | h
  · exact memChars_str_no_newline _ _ h
  rcases List.mem_cons.mp h with h | h
  · exact absurd h (by decide)
  rcases List.mem_cons.mp h with h | h
  · exact absurd h (by decide)
  rcases List.mem_append.mp h with h | h
  · exact memChars_str_no_newline _ _ h
  rcases List.mem_cons.mp h with h | h
  · exact absurd h (by decide)
  rcases List.mem_cons.mp h with h | h
  · exact absurd h (by decide)
  rcases List.mem_append.mp h with h | h
  · exact memChars_str_no_newline _ _ h
  rcases List.mem_cons.mp h with h | h
  · exact absurd h (by decide)
  rcases List.mem_cons.mp h with h | h
  · exact absurd h (by decide)
  rcases List.mem_append.mp h with h | h
  · exact memChars_nat_no_newline _ _ h
  rcases List.mem_cons.mp h with h | h
  · exact absurd h (by decide)
  rcases List.mem_cons.mp h with h | h
  · exact absurd h (by decide)
  rcases List.mem_append.mp h with h | h
  · exact memChars_str_no_newline _ _ h
  exact absurd h (by simp)

/-! ### split('/') lemmas -/

theorem splitSlash_ne_nil (l : List Char) : splitSlash l ≠ [] := by
  induction l with
  | nil => simp [splitSlash]
  | cons c rest ih =>
    rw [splitSlash]
    split
    · simp
    · split <;> simp

theorem lastPart_cons_of_ne (g : List Char) (gs : List (List Char)) (h : gs ≠ []) :
    lastPart (g :: gs) = lastPart gs := by
  cases gs with
  | nil => exact absurd rfl h
  | cons a as => rfl

theorem splitSlash_has_two (xs ys : List Char) :
    ∃ g gs, splitSlash (xs ++ '/' :: ys) = g :: gs ∧ gs ≠ [] := by
  induction xs with
  | nil =>
    rw [List.nil_append, splitSlash, if_pos rfl]
    exact ⟨[], splitSlash ys, rfl, splitSlash_ne_nil ys⟩
  | cons c xs ih =>
    rw [List.cons_append, splitSlash]
    by_cases hc : c = '/'
    · rw [if_pos hc]
      exact ⟨[], splitSlash (xs ++ '/' :: ys), rfl, splitSlash_ne_nil _⟩
    · rw [if_neg hc]
      obtain ⟨g, gs, heq, hne⟩ := ih
      rw [heq]
      exact ⟨c :: g, gs, rfl, hne⟩

theorem lastPart_splitSlash_append (xs ys : List Char) :
    lastPart (splitSlash (xs ++ '/' :: ys)) = lastPart (splitSlash ys) := by
  induction xs with
  | nil =>
    rw [List.nil_append, splitSlash, if_pos rfl,
      lastPart_cons_of_ne _ _ (splitSlash_ne_nil ys)]
  | cons c xs ih =>
    rw [List.cons_append, splitSlash]
    by_cases hc : c = '/'
    · rw [if_pos hc, lastPart_cons_of_ne _ _ (splitSlash_ne_nil _)]
      exact ih
    · rw [if_neg hc]
      obtain ⟨g, gs, heq, hne⟩ := splitSlash_has_two xs ys
      rw [heq]
      show lastPart ((c :: g) :: gs) = lastPart (splitSlash ys)
      rw [lastPart_cons_of_ne _ _ hne, ← lastPart_cons_of_ne g gs hne, ← heq]
      exact ih

theorem splitSlash_no_slash (l : List Char) (h : ¬('/' ∈ l)) : splitSlash l = [l] := by
  induction l with
  | nil => rfl
  | cons c rest ih =>
    have hc : ¬c = '/' := fun hc => h (by simp [hc])
    rw [splitSlash, if_neg hc, ih (fun hm => h (by simp [hm]))]

theorem basenameOf_append (dir base : String) (h : ¬('/' ∈ base.data)) :
    basenameOf (dir ++ "/" ++ base) = base := by
  apply String.ext
  show lastPart (splitSlash (dir ++ "/" ++ base).data) = base.data
  rw [String.data_append, String.data_append]
  rw [show ("/" : String).data = ['/'] from rfl]
  rw [List.append_assoc]
  rw [show ['/'] ++ base.data = '/' :: base.data from rfl]
  rw [lastPart_splitSlash_append, splitSlash_no_slash base.data h]
  rfl

/-! ### Further handler facts -/

theorem emit_first_log (s : HState) (r : LogRecord) :
    (JSONFileHandler.emit s r).first_log = false := by
  rw [JSONFileHandler.emit]
  by_cases h : s.first_log
  · rw [if_pos h]
  · rw [if_neg h]
    simp
    simp at h
    exact h

theorem runSession_cons_not_empty (e : LogRecord) (tl : List LogRecord) :
    (JSONFileHandler.runSession (e :: tl)).isEmpty = false := by
  apply Bool.eq_false_iff.mpr
  intro ht
  have hempty : JSONFileHandler.runSession (e :: tl) = "" :=
    (String.isEmpty_iff _).mp ht
  have hdata := runSession_cons_data e tl
  rw [hempty] at hdata
  exact absurd hdata.symm (by simp)

/-- C1: a session of N ≥ 0 emits on a fresh/empty file followed by close
yields, for N > 0, text that is `[\n`, the records separated by `,\n`, then
`\n]\n`, and that parses as a JSON array of exactly the N records' objects in
emission order; for N = 0 the file stays empty. -/
theorem claim_C1 (evs : List LogRecord) :
    (evs = [] → JSONFileHandler.runSession evs = "") ∧
    (evs ≠ [] →
      (JSONFileHandler.runSession evs).data =
        '[' :: '\n' :: (sepBy [',', '\n'] (evs.map jsonFormatChars) ++
          ('\n' :: ']' :: '\n' :: [])) ∧
      parseJsonArrayOfObjects (JSONFileHandler.runSession evs) =
        some (evs.map logObj)) := by
  constructor
  · intro h
    subst h
    exact runSession_nil
  · intro h
    cases evs with
    | nil => exact absurd rfl h
    | cons e tl =>
      constructor
      · rw [runSession_cons_data, sepBy_map_jsonFormat, List.append_assoc]
      · rw [parseJson_session_shape (JSONFileHandler.runSession (e :: tl)) e tl ['\n']
          (runSession_cons_data e tl)]
        rw [skipWs_ws '\n' _ (by decide), skipWs_nil]
        simp

theorem claim_C1_witness :
    ([sampleRec, sampleRec2] : List LogRecord) ≠ [] ∧
    parseJsonArrayOfObjects (JSONFileHandler.runSession [sampleRec, sampleRec2]) =
      some ([sampleRec, sampleRec2].map logObj) :=
  ⟨by simp, ((claim_C1 [sampleRec, sampleRec2]).2 (by simp)).2⟩

/-- C2 (counterexample): opening against a pre-existing non-empty file "x"
and closing without any emit appends `\n]\n` — the file is NOT left exactly
as it was at open. -/
theorem claim_C2_counterexample :
    JSONFileHandler.close (JSONFileHandler.init "x") = "x\n]\n" ∧
    ("x\n]\n" : String) ≠ "x" := by
  constructor
  · decide
  · decide

/-- C2 (amended): closing with zero emits leaves the file unchanged exactly
when the file was fresh/empty at open; a pre-existing non-empty file gets
`\n]\n` appended even though nothing was emitted. -/
theorem claim_C2_amended (c₀ : String) :
    JSONFileHandler.close (JSONFileHandler.init c₀) =
      if c₀.isEmpty then c₀ else c₀ ++ "\n]\n" := rfl

/-- C4: each formatted record parses as one JSON object with exactly the six
fields `timestamp` (the `%Y-%m-%d %H:%M:%S.%f` UTC rendering), `level`,
`module`, `function`, `line` (integer) and `message` (JSON-escaped), and the
output contains no raw newline (single line). -/
theorem claim_C4 (r : LogRecord) :
    parseJsonObject (JSONFormatter.format r) = some (logObj r) ∧
    ¬('\n' ∈ (JSONFormatter.format r).data) :=
  ⟨parseJsonObject_format r, jsonFormatChars_no_newline r⟩

/-- C5: opening against an existing non-empty file (here: a complete array
written by an earlier session) skips the `[`, the first emit uses the `,\n`
continuation form, and the closed result no longer parses as a JSON array —
the documented by-design invalidity. -/
theorem claim_C5 (evs : List LogRecord) (h : evs ≠ []) (r : LogRecord) :
    (JSONFileHandler.init (JSONFileHandler.runSession evs)).first_log = false ∧
    (JSONFileHandler.emit (JSONFileHandler.init (JSONFileHandler.runSession evs)) r).content =
      JSONFileHandler.runSession evs ++ ",\n" ++ JSONFormatter.format r ∧
    parseJsonArrayOfObjects (JSONFileHandler.close
      (JSONFileHandler.emit (JSONFileHandler.init (JSONFileHandler.runSession evs)) r)) =
      none := by
  cases evs with
  | nil => exact absurd rfl h
  | cons e tl =>
    have hflag : (JSONFileHandler.init (JSONFileHandler.runSession (e :: tl))).first_log = false := by
      rw [JSONFileHandler.init]
      exact runSession_cons_not_empty e tl
    refine ⟨hflag, ?_, ?_⟩
    · rw [JSONFileHandler.emit, if_neg (by rw [hflag]; simp)]
      simp [String.append_assoc]
      rfl
    · rw [JSONFileHandler.emit, if_neg (by rw [hflag]; simp)]
      rw [JSONFileHandler.close]
      rw [if_neg (by rw [hflag]; simp)]
      rw [parseJson_session_shape _ e tl
        ('\n' :: ',' :: '\n' :: (jsonFormatChars r ++ ('\n' :: ']' :: '\n' :: [])))]
      · rw [skipWs_ws '\n' _ (by decide), skipWs_not ',' _ (by decide)]
        simp
      · show ((JSONFileHandler.init (JSONFileHandler.runSession (e :: tl))).content ++
          ",\n" ++ JSONFormatter.format r ++ "\n]\n").data = _
        rw [String.data_append, String.data_append, String.data_append]
        rw [show (JSONFileHandler.init (JSONFileHandler.runSession (e :: tl))).content =
          JSONFileHandler.runSession (e :: tl) from rfl]
        rw [runSession_cons_data]
        rw [show (",\n" : String).data = [',', '\n'] from rfl,
          show ("\n]\n" : String).data = ['\n', ']', '\n'] from rfl,
          show (JSONFormatter.format r).data = jsonFormatChars r from rfl]
        simp [List.append_assoc]

theorem claim_C5_witness :
    ([sampleRec] : List LogRecord) ≠ [] ∧
    parseJsonArrayOfObjects (JSONFileHandler.close
      (JSONFileHandler.emit (JSONFileHandler.init (JSONFileHandler.runSession [sampleRec]))
        sampleRec2)) = none :=
  ⟨by simp, (claim_C5 [sampleRec] (by simp) sampleRec2).2.2⟩

/-- C6: running `setup_logging` twice with the same options replaces the
wiring rather than duplicating it: the result equals a single run, with
exactly one console handler and, iff `log_to_file`, exactly one file
handler. -/
theorem claim_C6 (ltf : Bool) (lvl : Nat) (argv0 : String) (now : UTCTime)
    (st : RootLogger) :
    setup_logging ltf lvl argv0 now (setup_logging ltf lvl argv0 now st) =
      setup_logging ltf lvl argv0 now st ∧
    countConsole (setup_logging ltf lvl argv0 now
      (setup_logging ltf lvl argv0 now st)).handlers = 1 ∧
    countFile (setup_logging ltf lvl argv0 now
      (setup_logging ltf lvl argv0 now st)).handlers = (if ltf then 1 else 0) := by
  cases ltf <;> simp [setup_logging, countConsole, countFile]

/-- C7: a message containing a double quote, a backslash and a newline is
escaped by the JSON string encoder into a valid JSON string literal whose
JSON decoding is exactly the original message. -/
theorem claim_C7 (s : String) (_h1 : '"' ∈ s.data) (_h2 : '\\' ∈ s.data)
    (_h3 : '\n' ∈ s.data) :
    decodeJsonString (encodeJsonString s) = some s := by
  rw [decodeJsonString]
  rw [show (encodeJsonString s).data = '"' :: (escBody s.data ++ ['"']) from rfl]
  simp only [if_pos rfl]
  rw [show (['"'] : List Char) = '"' :: [] from rfl, parseStringBody_escBody]
  simp [mkData]

theorem claim_C7_witness :
    ('"' ∈ ("a\"b\\c\nd" : String).data ∧ '\\' ∈ ("a\"b\\c\nd" : String).data ∧
      '\n' ∈ ("a\"b\\c\nd" : String).data) ∧
    decodeJsonString (encodeJsonString "a\"b\\c\nd") = some "a\"b\\c\nd" :=
  ⟨⟨by decide, by decide, by decide⟩,
    claim_C7 "a\"b\\c\nd" (by decide) (by decide) (by decide)⟩

/-- C9: the `_first_log` flag is false after any emit, and after a run of
emits it is true only when it started true and no emit happened: it flips
exactly once, on the first write, and never back. -/
theorem claim_C9 (s : HState) (r : LogRecord) (evs : List LogRecord) :
    (JSONFileHandler.emit s r).first_log = false ∧
    (JSONFileHandler.runEmits evs s).first_log = (s.first_log && evs.isEmpty) := by
  refine ⟨emit_first_log s r, ?_⟩
  induction evs generalizing s with
  | nil => simp [JSONFileHandler.runEmits]
  | cons e evs ih =>
    rw [show JSONFileHandler.runEmits (e :: evs) s =
      JSONFileHandler.runEmits evs (JSONFileHandler.emit s e) from rfl]
    rw [ih (JSONFileHandler.emit s e), emit_first_log]
    simp

/-- C3 (counterexample): for program path `src/main.py` at
2026-01-02 03:04:05 UTC, the attached file destination's name carries a
trailing `_UTC` before `.json`, so it differs from the claimed pattern
`logs/<basename>_<timestamp>.json` instantiated at those inputs. -/
theorem claim_C3_counterexample :
    fileNames (setup_logging true 20 "src/main.py" ⟨2026, 1, 2, 3, 4, 5, 0⟩
      ⟨20, []⟩).handlers = ["logs/main.py_2026-01-02_03-04-05_UTC.json"] ∧
    ("logs/main.py_2026-01-02_03-04-05_UTC.json" : String) ≠
      "logs/" ++ "main.py" ++ "_" ++ "2026-01-02_03-04-05" ++ ".json" := by
  constructor
  · decide
  · decide

/-- C3 (amended): with `log_to_file` enabled, exactly one file destination is
attached and its name is `logs/<program-basename>_<UTC timestamp
%Y-%m-%d_%H-%M-%S>_UTC.json`, where the basename is the last
slash-separated component of `sys.argv[0]`. -/
theorem claim_C3_amended (dir base : String) (lvl : Nat) (now : UTCTime)
    (st : RootLogger) (h : ¬('/' ∈ base.data)) :
    fileNames (setup_logging true lvl (dir ++ "/" ++ base) now st).handlers =
      ["logs/" ++ base ++ "_" ++ String.mk (fileTimestampChars now) ++ "_UTC.json"] := by
  rw [show setup_logging true lvl (dir ++ "/" ++ base) now st =
    ⟨lvl, [Handler.console lvl,
      Handler.file (logFileName (dir ++ "/" ++ base) now) lvl]⟩ from by
      simp [setup_logging]]
  rw [show fileNames [Handler.console lvl,
      Handler.file (logFileName (dir ++ "/" ++ base) now) lvl] =
    [logFileName (dir ++ "/" ++ base) now] from by simp [fileNames]]
  rw [logFileName, basenameOf_append dir base h]

theorem claim_C3_amended_witness :
    ¬('/' ∈ ("main.py" : String).data) ∧
    fileNames (setup_logging true 20 ("src" ++ "/" ++ "main.py")
      ⟨2026, 1, 2, 3, 4, 5, 0⟩ ⟨20, []⟩).handlers =
      ["logs/" ++ "main.py" ++ "_" ++
        String.mk (fileTimestampChars ⟨2026, 1, 2, 3, 4, 5, 0⟩) ++ "_UTC.json"] :=
  ⟨by decide, claim_C3_amended "src" "main.py" 20 ⟨2026, 1, 2, 3, 4, 5, 0⟩ ⟨20, []⟩ (by decide)⟩

/-! ### `%`-template engine stepping lemmas -/

theorem pct_lit_nil (r : LogRecord) : pctAux r PMode.lit [] = some [] := rfl

theorem pct_dir (r : LogRecord) (rest : List Char) :
    pctAux r PMode.lit ('%' :: '(' :: rest) = pctAux r (PMode.name []) rest := rfl

theorem pct_lit_char (r : LogRecord) (c : Char) (rest : List Char) (h : c ≠ '%') :
    pctAux r PMode.lit (c :: rest) = (pctAux r PMode.lit rest).map (c :: ·) := by
  rw [pctAux.eq_def]
  split <;> simp_all

theorem pct_name_close (r : LogRecord) (acc rest : List Char) :
    pctAux r (PMode.name acc) (')' :: rest) =
      pctAux r (PMode.spec acc.reverse []) rest := by
  rw [pctAux.eq_def]
  split <;> (try (simp_all; done))
  rename_i heq1 heq2
  injection heq1 with h1
  injection heq2 with h2 h3
  subst h1
  subst h3
  subst h2
  rw [if_pos rfl]

theorem pct_name_acc (r : LogRecord) (acc rest : List Char) (c : Char) (h : c ≠ ')') :
    pctAux r (PMode.name acc) (c :: rest) = pctAux r (PMode.name (c :: acc)) rest := by
  rw [pctAux.eq_def]
  split <;> simp_all

theorem pct_spec_conv (r : LogRecord) (nm acc rest : List Char) (c : Char)
    (h : c = 's' ∨ c = 'd') :
    pctAux r (PMode.spec nm acc) (c :: rest) =
      match formatField r nm acc.reverse c with
      | some out => (pctAux r PMode.lit rest).map (out ++ ·)
      | none => none := by
  rw [pctAux.eq_def]
  split <;> (try (simp_all; done))
  rename_i heq1 heq2
  injection heq1 with h1 h1b
  injection heq2 with h2 h3
  subst h1
  subst h1b
  subst h3
  subst h2
  rw [if_pos h]

theorem pct_spec_acc (r : LogRecord) (nm acc rest : List Char) (c : Char)
    (h : ¬(c = 's' ∨ c = 'd')) :
    pctAux r (PMode.spec nm acc) (c :: rest) =
      pctAux r (PMode.spec nm (c :: acc)) rest := by
  rw [pctAux.eq_def]
  split <;> simp_all

theorem pct_lit_run (r : LogRecord) (l : List Char) (hl : ¬('%' ∈ l)) :
    ∀ rest, pctAux r PMode.lit (l ++ rest) = (pctAux r PMode.lit rest).map (l ++ ·) := by
  induction l with
  | nil => intro rest; simp
  | cons c l ih =>
    intro rest
    have hc : c ≠ '%' := fun hcc => hl (by simp [hcc])
    rw [List.cons_append, pct_lit_char r c _ hc, ih (fun hm => hl (by simp [hm])) rest,
      Option.map_map]
    rfl

theorem pct_lit_whole (r : LogRecord) (l : List Char) (hl : ¬('%' ∈ l)) :
    pctAux r PMode.lit l = some l := by
  have h := pct_lit_run r l hl []
  rw [List.append_nil] at h
  rw [h, pct_lit_nil]
  simp

theorem pct_name_run (r : LogRecord) (l : List Char) (hl : ¬(')' ∈ l)) :
    ∀ acc rest, pctAux r (PMode.name acc) (l ++ ')' :: rest) =
      pctAux r (PMode.spec (acc.reverse ++ l) []) rest := by
  induction l with
  | nil =>
    intro acc rest
    rw [List.nil_append, pct_name_close]
    simp
  | cons c l ih =>
    intro acc rest
    have hc : c ≠ ')' := fun hcc => hl (by simp [hcc])
    rw [List.cons_append, pct_name_acc r _ _ c hc, ih (fun hm => hl (by simp [hm]))]
    simp [List.append_assoc]

theorem pct_spec_run (r : LogRecord) (l : List Char)
    (hl : ∀ c ∈ l, ¬(c = 's' ∨ c = 'd')) :
    ∀ nm acc rest (conv : Char), (conv = 's' ∨ conv = 'd') →
      pctAux r (PMode.spec nm acc) (l ++ conv :: rest) =
        match formatField r nm (acc.reverse ++ l) conv with
        | some out => (pctAux r PMode.lit rest).map (out ++ ·)
        | none => none := by
  induction l with
  | nil =>
    intro nm acc rest conv hconv
    rw [List.nil_append, pct_spec_conv r nm acc rest conv hconv]
    simp
  | cons c l ih =>
    intro nm acc rest conv hconv
    rw [List.cons_append, pct_spec_acc r nm acc _ c (hl c (by simp)),
      ih (fun x hx => hl x (by simp [hx])) nm (c :: acc) rest conv hconv]
    simp [List.append_assoc]

theorem pct_directive0 (r : LogRecord) (nm : List Char) (conv : Char)
    (rest out : List Char) (hnm : ¬(')' ∈ nm)) (hconv : conv = 's' ∨ conv = 'd')
    (hfmt : formatField r nm [] conv = some out) :
    pctAux r PMode.lit ('%' :: '(' :: (nm ++ (')' :: (conv :: rest)))) =
      (pctAux r PMode.lit rest).map (out ++ ·) := by
  rw [pct_dir, pct_name_run r nm hnm [] _]
  simp only [List.reverse_nil, List.nil_append]
  rw [pct_spec_conv r nm [] rest conv hconv]
  simp only [List.reverse_nil]
  rw [hfmt]

theorem pct_directive (r : LogRecord) (nm spec : List Char) (conv : Char)
    (rest out : List Char) (hnm : ¬(')' ∈ nm))
    (hspec : ∀ c ∈ spec, ¬(c = 's' ∨ c = 'd')) (hconv : conv = 's' ∨ conv = 'd')
    (hfmt : formatField r nm spec conv = some out) :
    pctAux r PMode.lit ('%' :: '(' :: (nm ++ (')' :: (spec ++ (conv :: rest))))) =
      (pctAux r PMode.lit rest).map (out ++ ·) := by
  rw [pct_dir, pct_name_run r nm hnm [] _]
  simp only [List.reverse_nil, List.nil_append]
  rw [pct_spec_run r spec hspec nm [] rest conv hconv]
  simp only [List.reverse_nil, List.nil_append]
  rw [hfmt]

/-! ### Evaluating `formatField` at the template's directives -/

theorem f_asctime (r : LogRecord) :
    formatField r ['a', 's', 'c', 't', 'i', 'm', 'e'] [] 's' =
      some (formatAscChars r.created) := by
  rw [formatField]
  rw [show recordField r (String.mk ['a', 's', 'c', 't', 'i', 'm', 'e']) =
    some (PVal.str (String.mk (formatAscChars r.created))) from rfl]
  simp +decide [show readFlags [] false false = (false, false, []) from rfl,
    show readWidth [] 0 = (0, []) from rfl, applyConv, padLeft, padRight, padNum]

theorem f_msecs (r : LogRecord) :
    formatField r ['m', 's', 'e', 'c', 's'] ['0', '3'] 'd' =
      some (padNum 3 r.msecs) := by
  rw [formatField]
  rw [show recordField r (String.mk ['m', 's', 'e', 'c', 's']) =
    some (PVal.num r.msecs) from rfl]
  simp +decide [show readFlags ['0', '3'] false false = (false, true, ['3']) from rfl,
    show readWidth ['3'] 0 = (3, []) from rfl, applyConv, padLeft, padRight, padNum]

theorem f_levelname (r : LogRecord) :
    formatField r ['l', 'e', 'v', 'e', 'l', 'n', 'a', 'm', 'e'] ['-', '8'] 's' =
      some (padRight ' ' 8 r.levelname.data) := by
  rw [formatField]
  rw [show recordField r (String.mk ['l', 'e', 'v', 'e', 'l', 'n', 'a', 'm', 'e']) =
    some (PVal.str r.levelname) from rfl]
  simp +decide [show readFlags ['-', '8'] false false = (true, false, ['8']) from rfl,
    show readWidth ['8'] 0 = (8, []) from rfl, applyConv, padLeft, padRight, padNum]

theorem f_module (r : LogRecord) :
    formatField r ['m', 'o', 'd', 'u', 'l', 'e'] [] 's' = some r.module.data := by
  rw [formatField]
  rw [show recordField r (String.mk ['m', 'o', 'd', 'u', 'l', 'e']) =
    some (PVal.str r.module) from rfl]
  simp +decide [show readFlags [] false false = (false, false, []) from rfl,
    show readWidth [] 0 = (0, []) from rfl, applyConv, padLeft, padRight, padNum]

theorem f_funcName (r : LogRecord) :
    formatField r ['f', 'u', 'n', 'c', 'N', 'a', 'm', 'e'] [] 's' =
      some r.funcName.data := by
  rw [formatField]
  rw [show recordField r (String.mk ['f', 'u', 'n', 'c', 'N', 'a', 'm', 'e']) =
    some (PVal.str r.funcName) from rfl]
  simp +decide [show readFlags [] false false = (false, false, []) from rfl,
    show readWidth [] 0 = (0, []) from rfl, applyConv, padLeft, padRight, padNum]

theorem f_lineno (r : LogRecord) :
    formatField r ['l', 'i', 'n', 'e', 'n', 'o'] [] 'd' =
      some (natToChars r.lineno) := by
  rw [formatField]
  rw [show recordField r (String.mk ['l', 'i', 'n', 'e', 'n', 'o']) =
    some (PVal.num r.lineno) from rfl]
  simp +decide [show readFlags [] false false = (false, false, []) from rfl,
    show readWidth [] 0 = (0, []) from rfl, applyConv, padLeft, padRight, padNum]

theorem f_message (r : LogRecord) :
    formatField r ['m', 'e', 's', 's', 'a', 'g', 'e'] [] 's' = some r.message.data := by
  rw [formatField]
  rw [show recordField r (String.mk ['m', 'e', 's', 's', 'a', 'g', 'e']) =
    some (PVal.str r.message) from rfl]
  simp +decide [show readFlags [] false false = (false, false, []) from rfl,
    show readWidth [] 0 = (0, []) from rfl, applyConv, padLeft, padRight, padNum]

theorem pct_log_format (r : LogRecord) (rest : List Char) :
    pctAux r PMode.lit (CustomFormatter.log_format.data ++ rest) =
      (pctAux r PMode.lit rest).map (consoleLineChars r ++ ·) := by
  rw [show CustomFormatter.log_format.data ++ rest =
    '%' :: '(' :: (['a', 's', 'c', 't', 'i', 'm', 'e'] ++ (')' :: ('s' :: ('.' :: ('%' :: '(' :: (['m', 's', 'e', 'c', 's'] ++ (')' :: (['0', '3'] ++ ('d' :: ([' ', '|', '|', ' '] ++ ('%' :: '(' :: (['l', 'e', 'v', 'e', 'l', 'n', 'a', 'm', 'e'] ++ (')' :: (['-', '8'] ++ ('s' :: ([' ', '|', '|', ' '] ++ ('%' :: '(' :: (['m', 'o', 'd', 'u', 'l', 'e'] ++ (')' :: ('s' :: (':' :: ('%' :: '(' :: (['f', 'u', 'n', 'c', 'N', 'a', 'm', 'e'] ++ (')' :: ('s' :: (':' :: ('%' :: '(' :: (['l', 'i', 'n', 'e', 'n', 'o'] ++ (')' :: ('d' :: ([' ', '|', '|', ' '] ++ ('%' :: '(' :: (['m', 'e', 's', 's', 'a', 'g', 'e'] ++ (')' :: ('s' :: (rest)))))))))))))))))))))))))))))))))))) from rfl]
  rw [pct_directive0 r ['a', 's', 'c', 't', 'i', 'm', 'e'] 's' _ _ (by decide) (by decide) (f_asctime r)]
  rw [pct_lit_char r '.' _ (by decide)]
  rw [pct_directive r ['m', 's', 'e', 'c', 's'] ['0', '3'] 'd' _ _ (by decide) (by decide) (by decide) (f_msecs r)]
  rw [pct_lit_run r [' ', '|', '|', ' '] (by decide)]
  rw [pct_directive r ['l', 'e', 'v', 'e', 'l', 'n', 'a', 'm', 'e'] ['-', '8'] 's' _ _ (by decide) (by decide) (by decide) (f_levelname r)]
  rw [pct_lit_run r [' ', '|', '|', ' '] (by decide)]
  rw [pct_directive0 r ['m', 'o', 'd', 'u', 'l', 'e'] 's' _ _ (by decide) (by decide) (f_module r)]
  rw [pct_lit_char r ':' _ (by decide)]
  rw [pct_directive0 r ['f', 'u', 'n', 'c', 'N', 'a', 'm', 'e'] 's' _ _ (by decide) (by decide) (f_funcName r)]
  rw [pct_lit_char r ':' _ (by decide)]
  rw [pct_directive0 r ['l', 'i', 'n', 'e', 'n', 'o'] 'd' _ _ (by decide) (by decide) (f_lineno r)]
  rw [pct_lit_run r [' ', '|', '|', ' '] (by decide)]
  rw [pct_directive0 r ['m', 'e', 's', 's', 'a', 'g', 'e'] 's' _ _ (by decide) (by decide) (f_message r)]
  simp only [Option.map_map]
  rw [consoleLineChars]
  congr 1
  funext x
  simp [Function.comp, List.append_assoc]

theorem pct_colored (r : LogRecord) (color : String) (hc : ¬('%' ∈ color.data)) :
    pctAux r PMode.lit
        ((color ++ CustomFormatter.log_format ++ CustomFormatter.reset).data) =
      some (color.data ++ (consoleLineChars r ++ CustomFormatter.reset.data)) := by
  rw [String.data_append, String.data_append, List.append_assoc]
  rw [pct_lit_run r color.data hc]
  rw [pct_log_format r CustomFormatter.reset.data]
  rw [pct_lit_whole r CustomFormatter.reset.data (by decide)]
  rfl

/-- C8: at each of the five defined severities, the console formatter yields
exactly `<timestamp>.<msec> || <LEVEL padded to 8 chars> ||
<module>:<function>:<line> || <message>` wrapped in the severity's ANSI color
prefix (grey for DEBUG and INFO, yellow for WARNING, red for ERROR, bold red
for CRITICAL) and the reset suffix. -/
theorem claim_C8 (r : LogRecord)
    (h : r.levelno = 10 ∨ r.levelno = 20 ∨ r.levelno = 30 ∨ r.levelno = 40 ∨
      r.levelno = 50) :
    CustomFormatter.format r =
      some (String.mk ((levelColor r.levelno).data ++
        (consoleLineChars r ++ CustomFormatter.reset.data))) := by
  rcases h with h | h | h | h | h
  · rw [CustomFormatter.format, h]
    rw [show CustomFormatter.FORMATS.lookup 10 =
      some (CustomFormatter.grey ++ CustomFormatter.log_format ++ CustomFormatter.reset)
      from rfl]
    rw [show levelColor 10 = CustomFormatter.grey from rfl]
    rw [pyFormatterFormat, percentFormat]
    rw [show (some (CustomFormatter.grey ++ CustomFormatter.log_format ++
      CustomFormatter.reset)).getD "%(message)s" =
      CustomFormatter.grey ++ CustomFormatter.log_format ++ CustomFormatter.reset from rfl]
    rw [pct_colored r CustomFormatter.grey (by decide)]
    rfl
  · rw [CustomFormatter.format, h]
    rw [show CustomFormatter.FORMATS.lookup 20 =
      some (CustomFormatter.grey ++ CustomFormatter.log_format ++ CustomFormatter.reset)
      from rfl]
    rw [show levelColor 20 = CustomFormatter.grey from rfl]
    rw [pyFormatterFormat, percentFormat]
    rw [show (some (CustomFormatter.grey ++ CustomFormatter.log_format ++
      CustomFormatter.reset)).getD "%(message)s" =
      CustomFormatter.grey ++ CustomFormatter.log_format ++ CustomFormatter.reset from rfl]
    rw [pct_colored r CustomFormatter.grey (by decide)]
    rfl
  · rw [CustomFormatter.format, h]
    rw [show CustomFormatter.FORMATS.lookup 30 =
      some (CustomFormatter.yellow ++ CustomFormatter.log_format ++ CustomFormatter.reset)
      from rfl]
    rw [show levelColor 30 = CustomFormatter.yellow from rfl]
    rw [pyFormatterFormat, percentFormat]
    rw [show (some (CustomFormatter.yellow ++ CustomFormatter.log_format ++
      CustomFormatter.reset)).getD "%(message)s" =
      CustomFormatter.yellow ++ CustomFormatter.log_format ++ CustomFormatter.reset from rfl]
    rw [pct_colored r CustomFormatter.yellow (by decide)]
    rfl
  · rw [CustomFormatter.format, h]
    rw [show CustomFormatter.FORMATS.lookup 40 =
      some (CustomFormatter.red ++ CustomFormatter.log_format ++ CustomFormatter.reset)
      from rfl]
    rw [show levelColor 40 = CustomFormatter.red from rfl]
    rw [pyFormatterFormat, percentFormat]
    rw [show (some (CustomFormatter.red ++ CustomFormatter.log_format ++
      CustomFormatter.reset)).getD "%(message)s" =
      CustomFormatter.red ++ CustomFormatter.log_format ++ CustomFormatter.reset from rfl]
    rw [pct_colored r CustomFormatter.red (by decide)]
    rfl
  · rw [CustomFormatter.format, h]
    rw [show CustomFormatter.FORMATS.lookup 50 =
      some (CustomFormatter.bold_red ++ CustomFormatter.log_format ++ CustomFormatter.reset)
      from rfl]
    rw [show levelColor 50 = CustomFormatter.bold_red from rfl]
    rw [pyFormatterFormat, percentFormat]
    rw [show (some (CustomFormatter.bold_red ++ CustomFormatter.log_format ++
      CustomFormatter.reset)).getD "%(message)s" =
      CustomFormatter.bold_red ++ CustomFormatter.log_format ++ CustomFormatter.reset from rfl]
    rw [pct_colored r CustomFormatter.bold_red (by decide)]
    rfl

theorem claim_C8_witness :
    (sampleRec.levelno = 10 ∨ sampleRec.levelno = 20 ∨ sampleRec.levelno = 30 ∨
      sampleRec.levelno = 40 ∨ sampleRec.levelno = 50) ∧
    CustomFormatter.format sampleRec =
      some (String.mk ((levelColor sampleRec.levelno).data ++
        (consoleLineChars sampleRec ++ CustomFormatter.reset.data))) :=
  ⟨by decide, claim_C8 sampleRec (by decide)⟩

/-- C10: at a level absent from the FORMATS table, `dict.get` yields `None`,
`logging.Formatter` falls back to the default `%(message)s` style, and
`format` still returns a string — just the bare, uncolored message. -/
theorem claim_C10 (r : LogRecord)
    (h : ¬(r.levelno = 10 ∨ r.levelno = 20 ∨ r.levelno = 30 ∨ r.levelno = 40 ∨
      r.levelno = 50)) :
    CustomFormatter.format r = some r.message := by
  push_neg at h
  obtain ⟨h1, h2, h3, h4, h5⟩ := h
  have e1 : (r.levelno == 10) = false := beq_eq_false_iff_ne.mpr h1
  have e2 : (r.levelno == 20) = false := beq_eq_false_iff_ne.mpr h2
  have e3 : (r.levelno == 30) = false := beq_eq_false_iff_ne.mpr h3
  have e4 : (r.levelno == 40) = false := beq_eq_false_iff_ne.mpr h4
  have e5 : (r.levelno == 50) = false := beq_eq_false_iff_ne.mpr h5
  have hlk : CustomFormatter.FORMATS.lookup r.levelno = none := by
    simp [CustomFormatter.FORMATS, List.lookup, e1, e2, e3, e4, e5]
  rw [CustomFormatter.format, hlk]
  rw [pyFormatterFormat, percentFormat]
  rw [show (none : Option String).getD "%(message)s" = "%(message)s" from rfl]
  rw [show ("%(message)s" : String).data =
    '%' :: '(' :: (['m', 'e', 's', 's', 'a', 'g', 'e'] ++ (')' :: ('s' :: ([]))))
    from rfl]
  rw [pct_directive0 r ['m', 'e', 's', 's', 'a', 'g', 'e'] 's' _ _ (by decide)
    (by decide) (f_message r)]
  rw [pct_lit_nil]
  simp [mkData]

theorem claim_C10_witness :
    ¬(sampleRec3.levelno = 10 ∨ sampleRec3.levelno = 20 ∨ sampleRec3.levelno = 30 ∨
      sampleRec3.levelno = 40 ∨ sampleRec3.levelno = 50) ∧
    CustomFormatter.format sampleRec3 = some sampleRec3.message :=
  ⟨by decide, claim_C10 sampleRec3 (by decide)⟩
